import Mathlib

/-!
Verification of the tps-ai template plugin (`settings.js` and the raw-OpenAI
variant). We shallowly embed the path arithmetic (`path.join`, `path.dirname`),
the file-system effects (`fs.mkdir {recursive}`, `fs.writeFile` with flags
`w`/`wx`), the materialization loop `generateFileContent`, the provider
selection `getLanguageModel`, and the `onRender` event flow. The file system is
modelled as an explicit state (a list of existing directories and an
association list of files to contents); fallible operations return
`Except (String × FSState) FSState`, where an error carries the message of the
thrown `Error` together with the state of the disk when the exception
propagates.
-/

/-- A file-system path, normalized to its list of segments. The empty list is
the current working directory (`.`). -/
abbrev FPath := List String

/-- Splitting a path string on the separator, mirroring the segment
decomposition performed by Node's `path` module (e.g. `"./a/b"` becomes
`[".", "a", "b"]`). -/
def splitSegsAux : List Char → List Char → List String
  | [], cur => [String.mk cur.reverse]
  | c :: rest, cur =>
    if c = '/' then String.mk cur.reverse :: splitSegsAux rest []
    else splitSegsAux rest (c :: cur)

/-- Split a path string into raw segments on `/`. -/
def splitSegs (s : String) : List String :=
  splitSegsAux s.toList []

/-- One step of Node path normalization: empty and `.` segments are dropped,
`..` pops the previous segment (or is kept when there is nothing to pop in a
relative path), and any other segment is appended. -/
def normStep (acc : List String) (seg : String) : List String :=
  if seg = "" ∨ seg = "." then acc
  else if seg = ".." then
    match acc.getLast? with
    | none => [".."]
    | some t => if t = ".." then acc ++ [".."] else acc.dropLast
  else acc ++ [seg]

/-- Node path normalization of a relative segment list. -/
def normalizeSegs (segs : List String) : FPath :=
  segs.foldl normStep []

/-- Embedding of `path.join(dest, rel)` for relative POSIX paths: concatenate
the segments and normalize. -/
def joinPath (dest rel : String) : FPath :=
  normalizeSegs (splitSegs dest ++ splitSegs rel)

/-- The nonempty prefixes of a path, shortest first; these are the directories
`fs.mkdir(p, { recursive: true })` ensures exist. -/
def prefixes (p : FPath) : List FPath :=
  (List.range p.length).map (fun i => p.take (i + 1))

/-- The state of the disk: the set of existing directories and an association
list from file paths to their contents. -/
structure FSState where
  dirs : List FPath
  files : List (FPath × String)
deriving DecidableEq

/-- An empty disk (only the current working directory exists). -/
def emptyFS : FSState := ⟨[], []⟩

instance {ε α : Type} [DecidableEq ε] [DecidableEq α] : DecidableEq (Except ε α) :=
  fun a b =>
    match a, b with
    | Except.error e, Except.error f => decidable_of_iff (e = f) (by simp)
    | Except.ok x, Except.ok y => decidable_of_iff (x = y) (by simp)
    | Except.error _, Except.ok _ => isFalse (fun h => Except.noConfusion h)
    | Except.ok _, Except.error _ => isFalse (fun h => Except.noConfusion h)

/-- Lookup in the file association list (first matching entry). -/
def lookupFL : List (FPath × String) → FPath → Option String
  | [], _ => none
  | e :: rest, p => if e.1 = p then some e.2 else lookupFL rest p

/-- Write a key in the file association list: replace the first matching entry
in place, or append a new one. -/
def setFile : List (FPath × String) → FPath → String → List (FPath × String)
  | [], p, c => [(p, c)]
  | e :: rest, p, c => if e.1 = p then (p, c) :: rest else e :: setFile rest p c

/-- Content of the file at `p`, if one exists. -/
def FSState.lookupFile (s : FSState) (p : FPath) : Option String :=
  lookupFL s.files p

/-- Does `p` exist as a directory? The working directory `[]` always does. -/
def FSState.isDir (s : FSState) (p : FPath) : Bool :=
  p.isEmpty || decide (p ∈ s.dirs)

/-- Does `p` exist as a regular file? -/
def FSState.isFile (s : FSState) (p : FPath) : Bool :=
  (s.lookupFile p).isSome

/-- Creating one directory level during a recursive mkdir: an existing file at
the path is an error, an existing directory is kept, otherwise the directory
is recorded. -/
def mkdirStep (st : FSState) (q : FPath) : Except (String × FSState) FSState :=
  if st.isFile q then Except.error ("EEXIST: file exists", st)
  else if st.isDir q then Except.ok st
  else Except.ok { st with dirs := st.dirs ++ [q] }

/-- Embedding of `fs.mkdir(p, { recursive: true })`: create every missing
ancestor of `p` in order, failing when a regular file is in the way. -/
def mkdirRec (s : FSState) (p : FPath) : Except (String × FSState) FSState :=
  (prefixes p).foldlM mkdirStep s

/-- The two `fs.writeFile` flags the code uses: `w` (create or truncate) and
`wx` (like `w` but failing when the path already exists). -/
inductive WriteFlag
  | w
  | wx
deriving DecidableEq

/-- Embedding of `fs.writeFile(p, content, { flag })`. -/
def writeFile (s : FSState) (p : FPath) (content : String) (flag : WriteFlag) :
    Except (String × FSState) FSState :=
  if s.isDir p then Except.error ("EISDIR: illegal operation on a directory", s)
  else if flag = WriteFlag.wx ∧ s.isFile p then
    Except.error ("EEXIST: file already exists", s)
  else if s.isDir p.dropLast = false then
    Except.error ("ENOENT: no such file or directory", s)
  else Except.ok { s with files := setFile s.files p content }

/-- Type tag of a file-system record, from the zod enum `['directory','file']`. -/
inductive FSOType
  | directory
  | file
deriving DecidableEq

/-- A record of the `FileSystemObjectSchema` of `settings.js`: a relative path,
a type tag, and an optional content string. -/
structure FileSystemObject where
  path : String
  type : FSOType
  content : Option String
deriving DecidableEq

/-- The `FileSystemSchema` wrapper: the flat list of records. -/
structure FileSystem where
  fileContents : List FileSystemObject
deriving DecidableEq

/-- The destination path of a record: `path.join(dest, fileOrDir.path)`. -/
def destPath (dest : String) (r : FileSystemObject) : FPath :=
  joinPath dest r.path

/-- One iteration of the loop body of `generateFileContent` in `settings.js`:
directories are made recursively; for files the parent directory is made and
the file written with `wx` when `force` is set and `w` otherwise, the content
defaulting to the empty string (`fileOrDir.content || ''`). -/
def writeStep (dest : String) (force : Bool) (st : FSState)
    (fileOrDir : FileSystemObject) : Except (String × FSState) FSState :=
  let filePath := joinPath dest fileOrDir.path
  match fileOrDir.type with
  | FSOType.directory => mkdirRec st filePath
  | FSOType.file => do
      let st1 ← mkdirRec st filePath.dropLast
      writeFile st1 filePath (fileOrDir.content.getD "")
        (if force then WriteFlag.wx else WriteFlag.w)

/-- Embedding of `generateFileContent(dest, fileSystem, force)` of
`settings.js`: fold the loop body over the record list. -/
def generateFileContent (dest : String) (fileSystem : FileSystem)
    (force : Bool) (s : FSState) : Except (String × FSState) FSState :=
  fileSystem.fileContents.foldlM (writeStep dest force) s

/-- A record of the raw-OpenAI variant's schema, where `content` is a required
string. -/
structure FileSystemObjectRaw where
  path : String
  type : FSOType
  content : String
deriving DecidableEq

/-- The raw-OpenAI variant's `FileSystemSchema` wrapper. -/
structure FileSystemRaw where
  fileContents : List FileSystemObjectRaw
deriving DecidableEq

/-- Loop body of `generateFileContent` of the raw-OpenAI variant, which writes
`fileOrDir.content` directly. -/
def writeStepRaw (dest : String) (force : Bool) (st : FSState)
    (fileOrDir : FileSystemObjectRaw) : Except (String × FSState) FSState :=
  let filePath := joinPath dest fileOrDir.path
  match fileOrDir.type with
  | FSOType.directory => mkdirRec st filePath
  | FSOType.file => do
      let st1 ← mkdirRec st filePath.dropLast
      writeFile st1 filePath fileOrDir.content
        (if force then WriteFlag.wx else WriteFlag.w)

/-- Embedding of `generateFileContent` of the raw-OpenAI variant. -/
def generateFileContentRaw (dest : String) (fileSystem : FileSystemRaw)
    (force : Bool) (s : FSState) : Except (String × FSState) FSState :=
  fileSystem.fileContents.foldlM (writeStepRaw dest force) s


/-- The collected answers of the prompts of `settings.js`; absent values are
modelled as the empty string, matching the JavaScript falsiness of `''`,
`undefined` and `null` in the checks the code performs. -/
structure Answers where
  build : String
  provider : String
  model : String
  token : String
  baseUrl : String
  prompts : List String
deriving DecidableEq

/-- The AWS environment variables consulted by the `amazon-bedrock` branch of
`getLanguageModel`; `none` models an unset variable. -/
structure Env where
  awsRegion : Option String
  awsAccessKeyId : Option String
  awsSecretAccessKey : Option String
deriving DecidableEq

/-- JavaScript falsiness of `process.env.X`: unset or the empty string. -/
def envFalsy : Option String → Bool
  | none => true
  | some s => s = ""

/-- The value returned by a provider factory: which SDK adapter was chosen and
with which options (the spread `commonOpts` and the model identifier). -/
inductive LanguageModel
  | openai (baseURL apiKey model : String)
  | anthropic (baseURL apiKey model : String)
  | azure (baseURL apiKey model : String)
  | google (baseURL apiKey model : String)
  | amazonBedrock (model : String)
  | deepseek (baseURL apiKey model : String)
deriving DecidableEq

/-- The provider identifiers of the `switch` in `getLanguageModel` (also the
`choices` of the `provider` prompt). -/
def supportedProviders : List String :=
  ["openai", "anthropic", "azure", "google", "amazon-bedrock", "deepseek"]

/-- Embedding of `getLanguageModel` of `settings.js`: dispatch on the provider
identifier; the `amazon-bedrock` case demands the AWS environment variables and
the default case throws `Unsupported llm provider`. -/
def getLanguageModel (env : Env) (a : Answers) : Except String LanguageModel :=
  if a.provider = "openai" then
    Except.ok (LanguageModel.openai a.baseUrl a.token a.model)
  else if a.provider = "anthropic" then
    Except.ok (LanguageModel.anthropic a.baseUrl a.token a.model)
  else if a.provider = "azure" then
    Except.ok (LanguageModel.azure a.baseUrl a.token a.model)
  else if a.provider = "google" then
    Except.ok (LanguageModel.google a.baseUrl a.token a.model)
  else if a.provider = "amazon-bedrock" then
    if envFalsy env.awsRegion || envFalsy env.awsAccessKeyId ||
        envFalsy env.awsSecretAccessKey then
      Except.error "amazon-bedrock provider only supports providing credentials through enviroment varibles. Please provide all env varibles (AWS_REGION, AWS_ACCESS_KEY_ID, AWS_SECRET_ACCESS_KEY, AWS_SESSION_TOKEN)"
    else Except.ok (LanguageModel.amazonBedrock a.model)
  else if a.provider = "deepseek" then
    Except.ok (LanguageModel.deepseek a.baseUrl a.token a.model)
  else Except.error ("Unsupported llm provider: " ++ a.provider)

/-- Observable outcome of one `onRender` invocation: whether the provider
network call (`generateObject`) was reached, the thrown error message (if
any), and the state of the disk afterwards. -/
structure RenderTrace where
  llmCalled : Bool
  errorMsg : Option String
  finalState : FSState
deriving DecidableEq

/-- Embedding of the `onRender` event of `settings.js`. `llmResponse` is the
structured object the provider call would return (`none` models a null or
missing file-system object), `force` is `tps.opts.force || tps.opts.wipe`, and
the `Promise.all` over `buildPaths` is modelled as a sequential fold (the spec
assumes the caller-supplied paths are non-conflicting). -/
def onRender (env : Env) (a : Answers) (buildPaths : List String) (force : Bool)
    (llmResponse : Option FileSystem) (s : FSState) : RenderTrace :=
  if a.token = "" ∧ a.provider ≠ "amazon-bedrock" then
    ⟨false, some "API token required!", s⟩
  else if a.provider = "" then
    ⟨false, some "LLM provider required!", s⟩
  else
    match getLanguageModel env a with
    | Except.error e => ⟨false, some e, s⟩
    | Except.ok _ =>
      match llmResponse with
      | none => ⟨true, some "LLM didnt return a valid response", s⟩
      | some fileSystem =>
        match buildPaths.foldlM
            (fun st buildPath => generateFileContent buildPath fileSystem force st)
            s with
        | Except.ok s2 => ⟨true, none, s2⟩
        | Except.error (msg, s2) => ⟨true, some msg, s2⟩

/-- The directories one loop iteration of `generateFileContent` guarantees
exist for a record: every prefix of the destination path for a directory
record, and every prefix of its parent for a file record. -/
def neededDirs (dest : String) (r : FileSystemObject) : List FPath :=
  match r.type with
  | FSOType.directory => prefixes (destPath dest r)
  | FSOType.file => prefixes (destPath dest r).dropLast

/-- The destination paths written as files by a record list. -/
def writtenKeys (dest : String) (l : List FileSystemObject) : List FPath :=
  (l.filter (fun r => decide (r.type = FSOType.file))).map (destPath dest)

/-- A well-formed disk: file paths are distinct keys and no path is both a
directory and a file. -/
def WF (s : FSState) : Prop :=
  (s.files.map Prod.fst).Nodup ∧ ∀ p ∈ s.dirs, p ∉ s.files.map Prod.fst

/-- The error messages a file-system operation of the materialization loop can
produce. -/
def FsMsg (m : String) : Prop :=
  m = "EEXIST: file exists" ∨ m = "EISDIR: illegal operation on a directory" ∨
    m = "EEXIST: file already exists" ∨ m = "ENOENT: no such file or directory"

/-- Binding an error in `Except` short-circuits. -/
theorem except_bind_error {ε σ : Type} (e : ε) (g : σ → Except ε σ) :
    (Except.error e >>= g) = (Except.error e : Except ε σ) := rfl

/-- Binding a success in `Except` applies the continuation. -/
theorem except_bind_ok {ε σ : Type} (s : σ) (g : σ → Except ε σ) :
    (Except.ok s >>= g) = g s := rfl

/-- Unfolding a monadic fold over `Except` on a cons cell: it succeeds exactly
when the first step succeeds and the rest of the fold does. -/
theorem foldlM_cons_ok {ε σ α : Type} (f : σ → α → Except ε σ) (a : α)
    (l : List α) (s s' : σ) :
    (a :: l).foldlM f s = Except.ok s' ↔
      ∃ s₁, f s a = Except.ok s₁ ∧ l.foldlM f s₁ = Except.ok s' := by
  rw [List.foldlM_cons]
  cases hfa : f s a with
  | error e =>
      rw [except_bind_error]
      constructor
      · intro hb; cases hb
      · rintro ⟨s₁, h1, -⟩; cases h1
  | ok s₁ =>
      rw [except_bind_ok]
      constructor
      · intro hb; exact ⟨s₁, rfl, hb⟩
      · rintro ⟨s₂, h2, hrest⟩; cases h2; exact hrest

/-- An invariant preserved by every successful step of a fold, for steps drawn
from the folded list, holds of a successful fold's result. -/
theorem foldlM_inv_mem {ε σ α : Type} (f : σ → α → Except ε σ) (Inv : σ → Prop) :
    ∀ (l : List α) (s s' : σ),
      (∀ st a, a ∈ l → ∀ st', f st a = Except.ok st' → Inv st → Inv st') →
      l.foldlM f s = Except.ok s' → Inv s → Inv s'
  | [], s, s', _, hf, hs => by
      rw [List.foldlM_nil] at hf; cases hf; exact hs
  | a :: l, s, s', hstep, hf, hs => by
      rcases (foldlM_cons_ok f a l s s').1 hf with ⟨s₁, h1, hrest⟩
      exact foldlM_inv_mem f Inv l s₁ s'
        (fun st b hb st' => hstep st b (List.mem_cons_of_mem a hb) st')
        hrest (hstep s a (List.mem_cons_self a l) s₁ h1 hs)

/-- Preservation through the whole fold (no member information needed). -/
theorem foldlM_pres {ε σ α : Type} (f : σ → α → Except ε σ) (Inv : σ → Prop)
    (hstep : ∀ st a st', f st a = Except.ok st' → Inv st → Inv st')
    (l : List α) (s s' : σ) (hf : l.foldlM f s = Except.ok s') (hs : Inv s) :
    Inv s' :=
  foldlM_inv_mem f Inv l s s' (fun st a _ st' => hstep st a st') hf hs

/-- A per-member postcondition established by each step and preserved by later
steps holds of the fold's result for every member. -/
theorem foldlM_post {ε σ α : Type} (f : σ → α → Except ε σ) (Q : α → σ → Prop) :
    ∀ (l : List α) (s s' : σ),
      (∀ st a st', a ∈ l → f st a = Except.ok st' → Q a st') →
      (∀ st a st' b, a ∈ l → f st a = Except.ok st' → Q b st → Q b st') →
      l.foldlM f s = Except.ok s' → ∀ a ∈ l, Q a s'
  | [], _, _, _, _, _ => by simp
  | a :: l, s, s', hstep, hmono, hf => by
      rcases (foldlM_cons_ok f a l s s').1 hf with ⟨s₁, h1, hrest⟩
      intro b hb
      rcases List.mem_cons.1 hb with hba | hbl
      · subst hba
        exact foldlM_inv_mem f (Q b) l s₁ s'
          (fun st c hc st' hok =>
            hmono st c st' b (List.mem_cons_of_mem b hc) hok)
          hrest (hstep s b s₁ (List.mem_cons_self b l) h1)
      · exact foldlM_post f Q l s₁ s'
          (fun st c st' hc => hstep st c st' (List.mem_cons_of_mem a hc))
          (fun st c st' b2 hc => hmono st c st' b2 (List.mem_cons_of_mem a hc))
          hrest b hbl

/-- Errors of a fold come from errors of its steps. -/
theorem foldlM_error_mem {ε σ α : Type} (f : σ → α → Except ε σ) (P : ε → Prop)
    (hf : ∀ st a e, f st a = Except.error e → P e) :
    ∀ (l : List α) (s : σ) (e : ε), l.foldlM f s = Except.error e → P e
  | [], s, e, h => by rw [List.foldlM_nil] at h; cases h
  | a :: l, s, e, h => by
      rw [List.foldlM_cons] at h
      cases hfa : f s a with
      | error e' =>
          rw [hfa, except_bind_error] at h
          injection h with h2
          exact h2 ▸ hf s a e' hfa
      | ok s₁ =>
          rw [hfa, except_bind_ok] at h
          exact foldlM_error_mem f P hf l s₁ e h

/-- A fold each of whose steps returns the state unchanged returns it
unchanged. -/
theorem foldlM_fix {ε σ α : Type} (f : σ → α → Except ε σ) (s : σ) :
    ∀ (l : List α), (∀ a ∈ l, f s a = Except.ok s) → l.foldlM f s = Except.ok s
  | [], _ => rfl
  | a :: l, h => by
      rw [List.foldlM_cons, h a (List.mem_cons_self a l), except_bind_ok]
      exact foldlM_fix f s l (fun b hb => h b (List.mem_cons_of_mem a hb))

/-- Every member of a successfully folded list was processed successfully from
some intermediate state, from which some remaining fold reaches the result. -/
theorem foldlM_mem_step {ε σ α : Type} (f : σ → α → Except ε σ) :
    ∀ (l : List α) (s s' : σ), l.foldlM f s = Except.ok s' → ∀ a ∈ l,
      ∃ t t' l₂, f t a = Except.ok t' ∧ List.foldlM f t' l₂ = Except.ok s'
  | [], _, _, _, a, ha => absurd ha (List.not_mem_nil a)
  | b :: l, s, s', hf, a, ha => by
      rcases (foldlM_cons_ok f b l s s').1 hf with ⟨s₁, h1, hrest⟩
      rcases List.mem_cons.1 ha with hab | hal
      · subst hab; exact ⟨s, s₁, l, h1, hrest⟩
      · exact foldlM_mem_step f l s₁ s' hrest a hal

/-- A lookup misses exactly when the key is absent. -/
theorem lookupFL_eq_none_iff (fl : List (FPath × String)) (p : FPath) :
    lookupFL fl p = none ↔ p ∉ fl.map Prod.fst := by
  induction fl with
  | nil => simp [lookupFL]
  | cons e rest ih =>
      by_cases h : e.1 = p
      · simp [lookupFL, h]
      · simp [lookupFL, h, ih, Ne.symm h]

/-- A lookup hits exactly when the key is present. -/
theorem lookupFL_isSome_iff (fl : List (FPath × String)) (p : FPath) :
    (lookupFL fl p).isSome = true ↔ p ∈ fl.map Prod.fst := by
  rw [Option.isSome_iff_ne_none, Ne, lookupFL_eq_none_iff, not_not]

/-- Setting a key then looking it up yields the new content. -/
theorem lookupFL_setFile_self (fl : List (FPath × String)) (p : FPath)
    (c : String) : lookupFL (setFile fl p c) p = some c := by
  induction fl with
  | nil => simp [setFile, lookupFL]
  | cons e rest ih =>
      by_cases h : e.1 = p
      · simp [setFile, h, lookupFL]
      · simp [setFile, h, lookupFL, ih]

/-- Setting a key leaves lookups of other keys unchanged. -/
theorem lookupFL_setFile_other (fl : List (FPath × String)) (p q : FPath)
    (c : String) (h : q ≠ p) :
    lookupFL (setFile fl p c) q = lookupFL fl q := by
  have hpq : ¬ p = q := fun hh => h hh.symm
  induction fl with
  | nil => simp [setFile, lookupFL, hpq]
  | cons e rest ih =>
      by_cases he : e.1 = p
      · have heq : ¬ e.1 = q := fun hh => h (he ▸ hh).symm
        simp [setFile, lookupFL, he, hpq, heq]
      · simp [setFile, lookupFL, he, ih]

/-- Setting an existing key keeps the key sequence. -/
theorem setFile_map_fst_mem (fl : List (FPath × String)) (p : FPath)
    (c : String) (h : p ∈ fl.map Prod.fst) :
    (setFile fl p c).map Prod.fst = fl.map Prod.fst := by
  induction fl with
  | nil => simp at h
  | cons e rest ih =>
      by_cases he : e.1 = p
      · simp [setFile, he]
      · have hp : p ∈ rest.map Prod.fst := by
          rcases List.mem_map.1 h with ⟨x, hx, hfst⟩
          rcases List.mem_cons.1 hx with h1 | h1
          · exact absurd (h1 ▸ hfst) he
          · exact List.mem_map.2 ⟨x, h1, hfst⟩
        simp [setFile, he, ih hp]

/-- Setting a fresh key appends it to the key sequence. -/
theorem setFile_map_fst_not_mem (fl : List (FPath × String)) (p : FPath)
    (c : String) (h : p ∉ fl.map Prod.fst) :
    (setFile fl p c).map Prod.fst = fl.map Prod.fst ++ [p] := by
  induction fl with
  | nil => simp [setFile]
  | cons e rest ih =>
      have he : e.1 ≠ p :=
        fun hh => h (List.mem_map.2 ⟨e, List.mem_cons_self e rest, hh⟩)
      have h2 : p ∉ rest.map Prod.fst := fun hh => h (by
        rw [List.map_cons]; exact List.mem_cons_of_mem _ hh)
      simp [setFile, he, ih h2]

/-- The keys of `setFile` contain the old keys. -/
theorem setFile_map_fst_sub (fl : List (FPath × String)) (p q : FPath)
    (c : String) (h : q ∈ fl.map Prod.fst) :
    q ∈ (setFile fl p c).map Prod.fst := by
  by_cases hm : p ∈ fl.map Prod.fst
  · rw [setFile_map_fst_mem fl p c hm]; exact h
  · rw [setFile_map_fst_not_mem fl p c hm]; exact List.mem_append_left _ h

/-- Characterization of directory existence. -/
theorem isDir_iff (s : FSState) (p : FPath) :
    s.isDir p = true ↔ p = [] ∨ p ∈ s.dirs := by
  simp [FSState.isDir, List.isEmpty_iff]

/-- Characterization of file existence. -/
theorem isFile_iff (s : FSState) (p : FPath) :
    s.isFile p = true ↔ p ∈ s.files.map Prod.fst := by
  simp [FSState.isFile, FSState.lookupFile, lookupFL_isSome_iff]

/-- Characterization of file absence. -/
theorem isFile_false_iff (s : FSState) (p : FPath) :
    s.isFile p = false ↔ p ∉ s.files.map Prod.fst := by
  rw [← isFile_iff]
  cases s.isFile p <;> simp

/-- Members of `prefixes p` are the nonempty initial segments of `p`. -/
theorem mem_prefixes_iff (p q : FPath) :
    q ∈ prefixes p ↔ ∃ i, i < p.length ∧ p.take (i + 1) = q := by
  simp [prefixes]

/-- Members of `prefixes p` are nonempty. -/
theorem mem_prefixes_ne_nil (p q : FPath) (h : q ∈ prefixes p) : q ≠ [] := by
  rcases (mem_prefixes_iff p q).1 h with ⟨i, hi, hq⟩
  intro hnil
  have hlen := congrArg List.length (hq.trans hnil)
  rw [List.length_take, List.length_nil] at hlen
  rcases Nat.min_eq_zero_iff.1 hlen with h1 | h1 <;> omega

/-- A nonempty path is among its own prefixes. -/
theorem self_mem_prefixes (p : FPath) (h : p ≠ []) : p ∈ prefixes p := by
  rw [mem_prefixes_iff]
  have hp : 0 < p.length := List.length_pos.2 h
  refine ⟨p.length - 1, by omega, ?_⟩
  have h1 : p.length - 1 + 1 = p.length := by omega
  rw [h1, List.take_length]

/-- Successful `mkdirStep` characterization. -/
theorem mkdirStep_ok_iff (st : FSState) (q : FPath) (st' : FSState) :
    mkdirStep st q = Except.ok st' ↔
      st.isFile q = false ∧
        ((st.isDir q = true ∧ st' = st) ∨
          (st.isDir q = false ∧ st' = { st with dirs := st.dirs ++ [q] })) := by
  unfold mkdirStep
  by_cases h1 : st.isFile q = true
  · simp [h1]
  · rw [Bool.not_eq_true] at h1
    by_cases h2 : st.isDir q = true
    · simp [h1, h2, eq_comm]
    · rw [Bool.not_eq_true] at h2
      simp [h1, h2, eq_comm]

/-- The lemma that `mkdirStep` only fails with the mkdir `EEXIST` message. -/
theorem mkdirStep_error_msg (st : FSState) (q : FPath) (e : String × FSState)
    (h : mkdirStep st q = Except.error e) : e.1 = "EEXIST: file exists" := by
  unfold mkdirStep at h
  by_cases h1 : st.isFile q = true
  · rw [if_pos h1] at h
    injection h with h2
    rw [← h2]
  · rw [if_neg h1] at h
    by_cases h2 : st.isDir q = true
    · rw [if_pos h2] at h; cases h
    · rw [if_neg h2] at h; cases h

/-- A `mkdirStep` never touches the files. -/
theorem mkdirStep_files (st : FSState) (q : FPath) (st' : FSState)
    (h : mkdirStep st q = Except.ok st') : st'.files = st.files := by
  rcases (mkdirStep_ok_iff st q st').1 h with ⟨-, ⟨-, rfl⟩ | ⟨-, rfl⟩⟩ <;> rfl

/-- A `mkdirStep` never removes directories. -/
theorem mkdirStep_dirs_mono (st : FSState) (q : FPath) (st' : FSState)
    (h : mkdirStep st q = Except.ok st') (x : FPath) (hx : x ∈ st.dirs) :
    x ∈ st'.dirs := by
  rcases (mkdirStep_ok_iff st q st').1 h with ⟨-, ⟨-, rfl⟩ | ⟨-, rfl⟩⟩
  · exact hx
  · exact List.mem_append_left _ hx

/-- A `mkdirStep` adds at most the directory it was asked for. -/
theorem mkdirStep_dirs_new (st : FSState) (q : FPath) (st' : FSState)
    (h : mkdirStep st q = Except.ok st') (x : FPath) (hx : x ∈ st'.dirs) :
    x ∈ st.dirs ∨ x = q := by
  rcases (mkdirStep_ok_iff st q st').1 h with ⟨-, ⟨-, rfl⟩ | ⟨-, rfl⟩⟩
  · exact Or.inl hx
  · rcases List.mem_append.1 hx with h2 | h2
    · exact Or.inl h2
    · exact Or.inr (by simpa using h2)

/-- A successful `mkdirStep` on a nonempty path leaves it a directory. -/
theorem mkdirStep_post (st : FSState) (q : FPath) (st' : FSState)
    (hq : q ≠ []) (h : mkdirStep st q = Except.ok st') : q ∈ st'.dirs := by
  rcases (mkdirStep_ok_iff st q st').1 h with ⟨-, ⟨hdir, heq⟩ | ⟨-, heq⟩⟩
  · rw [heq]
    rcases (isDir_iff st q).1 hdir with h0 | h0
    · exact absurd h0 hq
    · exact h0
  · rw [heq]; simp

/-- A `mkdirStep` keeps the disk well-formed. -/
theorem mkdirStep_WF (st : FSState) (q : FPath) (st' : FSState)
    (h : mkdirStep st q = Except.ok st') (hwf : WF st) : WF st' := by
  rcases (mkdirStep_ok_iff st q st').1 h with ⟨hnf, ⟨-, rfl⟩ | ⟨-, rfl⟩⟩
  · exact hwf
  · refine ⟨hwf.1, ?_⟩
    intro p hp
    rcases List.mem_append.1 hp with h2 | h2
    · exact hwf.2 p h2
    · have : p = q := by simpa using h2
      subst this
      exact (isFile_false_iff st p).1 hnf

/-- A successful recursive mkdir leaves the files untouched. -/
theorem mkdirRec_files (s : FSState) (p : FPath) (t : FSState)
    (h : mkdirRec s p = Except.ok t) : t.files = s.files :=
  foldlM_pres mkdirStep (fun st => st.files = s.files)
    (fun st q st' hok hst => (mkdirStep_files st q st' hok).trans hst)
    (prefixes p) s t h rfl

/-- A successful recursive mkdir never removes directories. -/
theorem mkdirRec_dirs_mono (s : FSState) (p : FPath) (t : FSState)
    (h : mkdirRec s p = Except.ok t) (x : FPath) (hx : x ∈ s.dirs) :
    x ∈ t.dirs :=
  foldlM_pres mkdirStep (fun st => x ∈ st.dirs)
    (fun st q st' hok hst => mkdirStep_dirs_mono st q st' hok x hst)
    (prefixes p) s t h hx

/-- A successful recursive mkdir adds only prefixes of its argument. -/
theorem mkdirRec_dirs_new (s : FSState) (p : FPath) (t : FSState)
    (h : mkdirRec s p = Except.ok t) (x : FPath) (hx : x ∈ t.dirs) :
    x ∈ s.dirs ∨ x ∈ prefixes p :=
  foldlM_inv_mem mkdirStep (fun st => x ∈ st.dirs → x ∈ s.dirs ∨ x ∈ prefixes p)
    (prefixes p) s t
    (fun st q hq st' hok hst hx' => by
      rcases mkdirStep_dirs_new st q st' hok x hx' with h2 | h2
      · exact hst h2
      · exact Or.inr (h2 ▸ hq))
    h (fun hx' => Or.inl hx') hx

/-- After a successful recursive mkdir, every prefix is a directory. -/
theorem mkdirRec_post (s : FSState) (p : FPath) (t : FSState)
    (h : mkdirRec s p = Except.ok t) : ∀ q ∈ prefixes p, q ∈ t.dirs :=
  foldlM_post mkdirStep (fun q st => q ∈ st.dirs) (prefixes p) s t
    (fun st q st' hq hok => mkdirStep_post st q st' (mem_prefixes_ne_nil p q hq) hok)
    (fun st q st' b _ hok hb => mkdirStep_dirs_mono st q st' hok b hb)
    h

/-- A recursive mkdir whose prefixes all already exist as directories (and not
as files) is a no-op. -/
theorem mkdirRec_noop (s : FSState) (p : FPath)
    (h : ∀ q ∈ prefixes p, q ∈ s.dirs ∧ q ∉ s.files.map Prod.fst) :
    mkdirRec s p = Except.ok s :=
  foldlM_fix mkdirStep s (prefixes p) (fun q hq => by
    rcases h q hq with ⟨hd, hf⟩
    have h1 : s.isFile q = false := (isFile_false_iff s q).2 hf
    have h2 : s.isDir q = true := (isDir_iff s q).2 (Or.inr hd)
    unfold mkdirStep
    rw [if_neg (by simp [h1]), if_pos h2])

/-- A successful recursive mkdir keeps the disk well-formed. -/
theorem mkdirRec_WF (s : FSState) (p : FPath) (t : FSState)
    (h : mkdirRec s p = Except.ok t) (hwf : WF s) : WF t :=
  foldlM_pres mkdirStep WF (fun st q st' hok hst => mkdirStep_WF st q st' hok hst)
    (prefixes p) s t h hwf

/-- Characterization of directory absence. -/
theorem isDir_false_iff (s : FSState) (p : FPath) :
    s.isDir p = false ↔ ¬(p = [] ∨ p ∈ s.dirs) := by
  rw [← isDir_iff]
  cases s.isDir p <;> simp

/-- Successful `writeFile` characterization. -/
theorem writeFile_ok_iff (s : FSState) (p : FPath) (c : String)
    (flag : WriteFlag) (t : FSState) :
    writeFile s p c flag = Except.ok t ↔
      s.isDir p = false ∧ ¬(flag = WriteFlag.wx ∧ s.isFile p = true) ∧
        s.isDir p.dropLast = true ∧
        t = { s with files := setFile s.files p c } := by
  unfold writeFile
  by_cases h1 : s.isDir p = true
  · simp [h1]
  · rw [Bool.not_eq_true] at h1
    by_cases h2 : flag = WriteFlag.wx ∧ s.isFile p = true
    · simp [h1, h2]
    · by_cases h3 : s.isDir p.dropLast = false
      · simp [h1, h2, h3]
      · have h3' : s.isDir p.dropLast = true := by
          revert h3; cases s.isDir p.dropLast <;> simp
        rw [if_neg (by simp [h1]), if_neg h2, if_neg (by simp [h3'])]
        constructor
        · intro hh
          injection hh with hh2
          exact ⟨h1, h2, h3', hh2.symm⟩
        · rintro ⟨-, -, -, rfl⟩
          rfl

/-- The operation `writeFile` only fails with a file-system error message. -/
theorem writeFile_error_msg (s : FSState) (p : FPath) (c : String)
    (flag : WriteFlag) (e : String × FSState)
    (h : writeFile s p c flag = Except.error e) : FsMsg e.1 := by
  unfold writeFile at h
  by_cases h1 : s.isDir p = true
  · rw [if_pos h1] at h
    injection h with h2
    exact Or.inr (Or.inl (by rw [← h2]))
  · rw [if_neg h1] at h
    by_cases h2 : flag = WriteFlag.wx ∧ s.isFile p = true
    · rw [if_pos h2] at h
      injection h with h3
      exact Or.inr (Or.inr (Or.inl (by rw [← h3])))
    · rw [if_neg h2] at h
      by_cases h3 : s.isDir p.dropLast = false
      · rw [if_pos h3] at h
        injection h with h4
        exact Or.inr (Or.inr (Or.inr (by rw [← h4])))
      · rw [if_neg h3] at h
        cases h

/-- Writing with `wx` over an existing file fails with `EEXIST` and does not
change the disk. -/
theorem writeFile_wx_exists (s : FSState) (p : FPath) (c : String)
    (h1 : s.isDir p = false) (h2 : s.isFile p = true) :
    writeFile s p c WriteFlag.wx =
      Except.error ("EEXIST: file already exists", s) := by
  unfold writeFile
  rw [if_neg (by simp [h1]), if_pos ⟨rfl, h2⟩]

/-- The loop body on a directory record is the recursive mkdir. -/
theorem writeStep_dir_eq (dest : String) (force : Bool) (st : FSState)
    (r : FileSystemObject) (hr : r.type = FSOType.directory) :
    writeStep dest force st r = mkdirRec st (joinPath dest r.path) := by
  unfold writeStep
  rw [hr]

/-- The loop body on a file record is the parent mkdir followed by the write. -/
theorem writeStep_file_eq (dest : String) (force : Bool) (st : FSState)
    (r : FileSystemObject) (hr : r.type = FSOType.file) :
    writeStep dest force st r =
      (mkdirRec st (joinPath dest r.path).dropLast >>= fun st1 =>
        writeFile st1 (joinPath dest r.path) (r.content.getD "")
          (if force then WriteFlag.wx else WriteFlag.w)) := by
  unfold writeStep
  rw [hr]

/-- Decomposition of a successful loop body on a file record. -/
theorem writeStep_file_ok (dest : String) (force : Bool) (st : FSState)
    (r : FileSystemObject) (st' : FSState) (hr : r.type = FSOType.file)
    (h : writeStep dest force st r = Except.ok st') :
    ∃ st1, mkdirRec st (destPath dest r).dropLast = Except.ok st1 ∧
      writeFile st1 (destPath dest r) (r.content.getD "")
        (if force then WriteFlag.wx else WriteFlag.w) = Except.ok st' := by
  rw [writeStep_file_eq dest force st r hr] at h
  cases hmk : mkdirRec st (joinPath dest r.path).dropLast with
  | error e => rw [hmk, except_bind_error] at h; cases h
  | ok st1 => rw [hmk, except_bind_ok] at h; exact ⟨st1, hmk, h⟩

/-- The loop body never removes directories. -/
theorem writeStep_dirs_mono (dest : String) (force : Bool) (st : FSState)
    (r : FileSystemObject) (st' : FSState)
    (h : writeStep dest force st r = Except.ok st') (x : FPath)
    (hx : x ∈ st.dirs) : x ∈ st'.dirs := by
  cases hr : r.type with
  | directory =>
      rw [writeStep_dir_eq dest force st r hr] at h
      exact mkdirRec_dirs_mono st _ st' h x hx
  | file =>
      rcases writeStep_file_ok dest force st r st' hr h with ⟨st1, hmk, hw⟩
      have h1 := mkdirRec_dirs_mono st _ st1 hmk x hx
      rcases (writeFile_ok_iff st1 _ _ _ st').1 hw with ⟨-, -, -, rfl⟩
      exact h1

/-- The loop body never removes file keys. -/
theorem writeStep_keys_mono (dest : String) (force : Bool) (st : FSState)
    (r : FileSystemObject) (st' : FSState)
    (h : writeStep dest force st r = Except.ok st') (x : FPath)
    (hx : x ∈ st.files.map Prod.fst) : x ∈ st'.files.map Prod.fst := by
  cases hr : r.type with
  | directory =>
      rw [writeStep_dir_eq dest force st r hr] at h
      rw [mkdirRec_files st _ st' h]
      exact hx
  | file =>
      rcases writeStep_file_ok dest force st r st' hr h with ⟨st1, hmk, hw⟩
      have h1 : x ∈ st1.files.map Prod.fst := by
        rw [mkdirRec_files st _ st1 hmk]; exact hx
      rcases (writeFile_ok_iff st1 _ _ _ st').1 hw with ⟨-, -, -, rfl⟩
      exact setFile_map_fst_sub st1.files _ x _ h1

/-- The loop body keeps the disk well-formed. -/
theorem writeStep_WF (dest : String) (force : Bool) (st : FSState)
    (r : FileSystemObject) (st' : FSState)
    (h : writeStep dest force st r = Except.ok st') (hwf : WF st) : WF st' := by
  cases hr : r.type with
  | directory =>
      rw [writeStep_dir_eq dest force st r hr] at h
      exact mkdirRec_WF st _ st' h hwf
  | file =>
      rcases writeStep_file_ok dest force st r st' hr h with ⟨st1, hmk, hw⟩
      have hwf1 : WF st1 := mkdirRec_WF st _ st1 hmk hwf
      rcases (writeFile_ok_iff st1 _ _ _ st').1 hw with ⟨hnd, -, -, rfl⟩
      have hpd : ¬(destPath dest r = [] ∨ destPath dest r ∈ st1.dirs) :=
        (isDir_false_iff st1 _).1 hnd
      by_cases hm : destPath dest r ∈ st1.files.map Prod.fst
      · refine ⟨?_, ?_⟩
        · show (List.map Prod.fst (setFile st1.files _ _)).Nodup
          rw [setFile_map_fst_mem st1.files _ _ hm]
          exact hwf1.1
        · intro x hx
          show x ∉ List.map Prod.fst (setFile st1.files _ _)
          rw [setFile_map_fst_mem st1.files _ _ hm]
          exact hwf1.2 x hx
      · refine ⟨?_, ?_⟩
        · show (List.map Prod.fst (setFile st1.files _ _)).Nodup
          rw [setFile_map_fst_not_mem st1.files _ _ hm, List.nodup_append]
          exact ⟨hwf1.1, List.nodup_singleton _,
            fun x hx1 hx2 => hm (by rwa [List.mem_singleton.1 hx2] at hx1)⟩
        · intro x hx
          show x ∉ List.map Prod.fst (setFile st1.files _ _)
          rw [setFile_map_fst_not_mem st1.files _ _ hm]
          intro hmem
          rcases List.mem_append.1 hmem with h2 | h2
          · exact hwf1.2 x hx h2
          · exact hpd (Or.inr (by rwa [← List.mem_singleton.1 h2]))

/-- The loop body changes no file other than the one a file record writes. -/
theorem writeStep_lookup_pres (dest : String) (force : Bool) (st : FSState)
    (r : FileSystemObject) (st' : FSState)
    (h : writeStep dest force st r = Except.ok st') (q : FPath)
    (hq : ¬(r.type = FSOType.file ∧ q = destPath dest r)) :
    st'.lookupFile q = st.lookupFile q := by
  cases hr : r.type with
  | directory =>
      rw [writeStep_dir_eq dest force st r hr] at h
      unfold FSState.lookupFile
      rw [mkdirRec_files st _ st' h]
  | file =>
      rcases writeStep_file_ok dest force st r st' hr h with ⟨st1, hmk, hw⟩
      have hf1 := mkdirRec_files st _ st1 hmk
      rcases (writeFile_ok_iff st1 _ _ _ st').1 hw with ⟨-, -, -, rfl⟩
      unfold FSState.lookupFile
      show lookupFL (setFile st1.files _ _) q = lookupFL st.files q
      rw [lookupFL_setFile_other st1.files _ q _ (fun hqp => hq ⟨hr, hqp⟩), hf1]

/-- Postconditions of a successful loop body on a file record: the file holds
the record's content (empty when absent), it is a file and not a directory,
and every ancestor of its parent is a directory. -/
theorem writeStep_file_post (dest : String) (force : Bool) (st : FSState)
    (r : FileSystemObject) (st' : FSState) (hr : r.type = FSOType.file)
    (h : writeStep dest force st r = Except.ok st') :
    st'.lookupFile (destPath dest r) = some (r.content.getD "") ∧
      destPath dest r ∈ st'.files.map Prod.fst ∧
      destPath dest r ∉ st'.dirs ∧ destPath dest r ≠ [] ∧
      (∀ q ∈ prefixes (destPath dest r).dropLast, q ∈ st'.dirs) := by
  rcases writeStep_file_ok dest force st r st' hr h with ⟨st1, hmk, hw⟩
  rcases (writeFile_ok_iff st1 _ _ _ st').1 hw with ⟨hnd, -, -, rfl⟩
  have hpd : ¬(destPath dest r = [] ∨ destPath dest r ∈ st1.dirs) :=
    (isDir_false_iff st1 _).1 hnd
  have hlk : lookupFL (setFile st1.files (destPath dest r) (r.content.getD ""))
      (destPath dest r) = some (r.content.getD "") :=
    lookupFL_setFile_self st1.files _ _
  refine ⟨hlk, ?_, ?_, ?_, ?_⟩
  · exact (lookupFL_isSome_iff _ _).1 (by rw [hlk]; rfl)
  · exact fun hmem => hpd (Or.inr hmem)
  · exact fun hnil => hpd (Or.inl hnil)
  · intro q hq
    exact mkdirRec_post st _ st1 hmk q hq

/-- The loop body only fails with a file-system error message. -/
theorem writeStep_error_msg (dest : String) (force : Bool) (st : FSState)
    (r : FileSystemObject) (e : String × FSState)
    (h : writeStep dest force st r = Except.error e) : FsMsg e.1 := by
  cases hr : r.type with
  | directory =>
      rw [writeStep_dir_eq dest force st r hr] at h
      exact foldlM_error_mem mkdirStep (fun e2 => FsMsg e2.1)
        (fun st2 q e2 h2 => Or.inl (mkdirStep_error_msg st2 q e2 h2))
        (prefixes (joinPath dest r.path)) st e h
  | file =>
      rw [writeStep_file_eq dest force st r hr] at h
      cases hmk : mkdirRec st (joinPath dest r.path).dropLast with
      | error e2 =>
          rw [hmk, except_bind_error] at h
          injection h with h2
          exact h2 ▸ foldlM_error_mem mkdirStep (fun e3 => FsMsg e3.1)
            (fun st2 q e3 h3 => Or.inl (mkdirStep_error_msg st2 q e3 h3))
            (prefixes (joinPath dest r.path).dropLast) st e2 hmk
      | ok st1 =>
          rw [hmk, except_bind_ok] at h
          exact writeFile_error_msg st1 _ _ _ e h

/-- The loop `generateFileContent` only fails with a file-system error message. -/
theorem generateFileContent_error_msg (dest : String) (fileSystem : FileSystem)
    (force : Bool) (s : FSState) (e : String × FSState)
    (h : generateFileContent dest fileSystem force s = Except.error e) :
    FsMsg e.1 :=
  foldlM_error_mem (writeStep dest force) (fun e2 => FsMsg e2.1)
    (fun st r e2 h2 => writeStep_error_msg dest force st r e2 h2)
    fileSystem.fileContents s e h

/-- Membership in the written file keys of a record list. -/
theorem mem_writtenKeys_iff (dest : String) (l : List FileSystemObject)
    (q : FPath) :
    q ∈ writtenKeys dest l ↔
      ∃ r, r ∈ l ∧ r.type = FSOType.file ∧ destPath dest r = q := by
  unfold writtenKeys
  constructor
  · intro h
    rcases List.mem_map.1 h with ⟨r, hr, hq⟩
    rcases List.mem_filter.1 hr with ⟨hl, hf⟩
    exact ⟨r, hl, of_decide_eq_true hf, hq⟩
  · rintro ⟨r, hl, hf, hq⟩
    exact List.mem_map.2 ⟨r, List.mem_filter.2 ⟨hl, decide_eq_true hf⟩, hq⟩

/-- The written keys are destination paths of list members. -/
theorem writtenKeys_sub_map (dest : String) (l : List FileSystemObject)
    (q : FPath) (h : q ∈ writtenKeys dest l) : q ∈ l.map (destPath dest) := by
  rcases (mem_writtenKeys_iff dest l q).1 h with ⟨r, hl, -, hq⟩
  exact List.mem_map.2 ⟨r, hl, hq⟩

/-- Over a successful materialization fold, directories only grow. -/
theorem fold_dirs_mono (dest : String) (force : Bool)
    (l : List FileSystemObject) (s s' : FSState)
    (h : l.foldlM (writeStep dest force) s = Except.ok s')
    (x : FPath) (hx : x ∈ s.dirs) : x ∈ s'.dirs :=
  foldlM_pres (writeStep dest force) (fun st => x ∈ st.dirs)
    (fun st r st' hok hst => writeStep_dirs_mono dest force st r st' hok x hst)
    l s s' h hx

/-- Over a successful materialization fold, file keys only grow. -/
theorem fold_keys_mono (dest : String) (force : Bool)
    (l : List FileSystemObject) (s s' : FSState)
    (h : l.foldlM (writeStep dest force) s = Except.ok s')
    (x : FPath) (hx : x ∈ s.files.map Prod.fst) : x ∈ s'.files.map Prod.fst :=
  foldlM_pres (writeStep dest force) (fun st => x ∈ st.files.map Prod.fst)
    (fun st r st' hok hst => writeStep_keys_mono dest force st r st' hok x hst)
    l s s' h hx

/-- Over a successful materialization fold, well-formedness is preserved. -/
theorem fold_WF (dest : String) (force : Bool) (l : List FileSystemObject)
    (s s' : FSState) (h : l.foldlM (writeStep dest force) s = Except.ok s')
    (hwf : WF s) : WF s' :=
  foldlM_pres (writeStep dest force) WF
    (fun st r st' hok hst => writeStep_WF dest force st r st' hok hst)
    l s s' h hwf

/-- Contents of paths the list does not write are preserved by the fold. -/
theorem fold_lookup_pres (dest : String) (force : Bool) :
    ∀ (l : List FileSystemObject) (s s' : FSState),
      l.foldlM (writeStep dest force) s = Except.ok s' →
      ∀ q, q ∉ writtenKeys dest l → s'.lookupFile q = s.lookupFile q
  | [], s, s', h, q, _ => by rw [List.foldlM_nil] at h; cases h; rfl
  | r :: l, s, s', h, q, hq => by
      rcases (foldlM_cons_ok _ r l s s').1 h with ⟨s₁, h1, hrest⟩
      have hq1 : q ∉ writtenKeys dest l := fun hh => by
        rcases (mem_writtenKeys_iff dest l q).1 hh with ⟨r2, hl2, hf2, hq2⟩
        exact hq ((mem_writtenKeys_iff dest (r :: l) q).2
          ⟨r2, List.mem_cons_of_mem r hl2, hf2, hq2⟩)
      have hqr : ¬(r.type = FSOType.file ∧ q = destPath dest r) := by
        rintro ⟨hrt, hqp⟩
        exact hq ((mem_writtenKeys_iff dest (r :: l) q).2
          ⟨r, List.mem_cons_self r l, hrt, hqp.symm⟩)
      rw [fold_lookup_pres dest force l s₁ s' hrest q hq1,
        writeStep_lookup_pres dest force s r s₁ h1 q hqr]

/-- Over a successful loop body, new directories come from the record's
needed directories. -/
theorem writeStep_dirs_new (dest : String) (force : Bool) (st : FSState)
    (r : FileSystemObject) (st' : FSState)
    (h : writeStep dest force st r = Except.ok st') (x : FPath)
    (hx : x ∈ st'.dirs) : x ∈ st.dirs ∨ x ∈ neededDirs dest r := by
  cases hr : r.type with
  | directory =>
      rw [writeStep_dir_eq dest force st r hr] at h
      rcases mkdirRec_dirs_new st _ st' h x hx with h2 | h2
      · exact Or.inl h2
      · exact Or.inr (by unfold neededDirs; rw [hr]; exact h2)
  | file =>
      rcases writeStep_file_ok dest force st r st' hr h with ⟨st1, hmk, hw⟩
      rcases (writeFile_ok_iff st1 _ _ _ st').1 hw with ⟨-, -, -, rfl⟩
      rcases mkdirRec_dirs_new st _ st1 hmk x hx with h2 | h2
      · exact Or.inl h2
      · exact Or.inr (by unfold neededDirs; rw [hr]; exact h2)

/-- Over a successful materialization fold, every directory either existed
before or is needed by some record. -/
theorem fold_dirs_new (dest : String) (force : Bool) :
    ∀ (l : List FileSystemObject) (s s' : FSState),
      l.foldlM (writeStep dest force) s = Except.ok s' →
      ∀ x ∈ s'.dirs, x ∈ s.dirs ∨ ∃ r ∈ l, x ∈ neededDirs dest r
  | [], s, s', h, x, hx => by rw [List.foldlM_nil] at h; cases h; exact Or.inl hx
  | r :: l, s, s', h, x, hx => by
      rcases (foldlM_cons_ok _ r l s s').1 h with ⟨s₁, h1, hrest⟩
      rcases fold_dirs_new dest force l s₁ s' hrest x hx with h2 | ⟨r2, hr2, hn⟩
      · rcases writeStep_dirs_new dest force s r s₁ h1 x h2 with h3 | h3
        · exact Or.inl h3
        · exact Or.inr ⟨r, List.mem_cons_self r l, h3⟩
      · exact Or.inr ⟨r2, List.mem_cons_of_mem r hr2, hn⟩

/-- Over a successful materialization fold, every file content either existed
before or comes from a file record of the list. -/
theorem fold_lookup_new (dest : String) (force : Bool) :
    ∀ (l : List FileSystemObject) (s s' : FSState),
      l.foldlM (writeStep dest force) s = Except.ok s' →
      ∀ q c, s'.lookupFile q = some c →
        s.lookupFile q = some c ∨
          ∃ r ∈ l, r.type = FSOType.file ∧ destPath dest r = q ∧
            r.content.getD "" = c
  | [], s, s', h, q, c, hl => by rw [List.foldlM_nil] at h; cases h; exact Or.inl hl
  | r :: l, s, s', h, q, c, hl => by
      rcases (foldlM_cons_ok _ r l s s').1 h with ⟨s₁, h1, hrest⟩
      rcases fold_lookup_new dest force l s₁ s' hrest q c hl with h2 | ⟨r2, hr2, h3, h4, h5⟩
      · by_cases hqr : r.type = FSOType.file ∧ q = destPath dest r
        · rcases hqr with ⟨hrt, hqp⟩
          have hpost := (writeStep_file_post dest force s r s₁ hrt h1).1
          rw [← hqp] at hpost
          rw [h2] at hpost
          injection hpost with h6
          exact Or.inr ⟨r, List.mem_cons_self r l, hrt, hqp.symm, h6.symm⟩
        · rw [writeStep_lookup_pres dest force s r s₁ h1 q hqr] at h2
          exact Or.inl h2
      · exact Or.inr ⟨r2, List.mem_cons_of_mem r hr2, h3, h4, h5⟩

/-- When destination paths are distinct, each file record's content survives
to the end of a successful fold. -/
theorem fold_file_content (dest : String) (force : Bool) :
    ∀ (l : List FileSystemObject) (s s' : FSState),
      l.foldlM (writeStep dest force) s = Except.ok s' →
      (l.map (destPath dest)).Nodup →
      ∀ r ∈ l, r.type = FSOType.file →
        s'.lookupFile (destPath dest r) = some (r.content.getD "")
  | [], _, _, _, _, r, hr, _ => absurd hr (List.not_mem_nil r)
  | r' :: l, s, s', h, hnd, r, hr, hrt => by
      rcases (foldlM_cons_ok _ r' l s s').1 h with ⟨s₁, h1, hrest⟩
      rcases List.mem_cons.1 hr with hrr | hrl
      · subst hrr
        have hpost := (writeStep_file_post dest force s r s₁ hrt h1).1
        have hnw : destPath dest r ∉ writtenKeys dest l := fun hh => by
          have := writtenKeys_sub_map dest l _ hh
          exact (List.nodup_cons.1 hnd).1 this
        rw [fold_lookup_pres dest force l s₁ s' hrest _ hnw]
        exact hpost
      · exact fold_file_content dest force l s₁ s' hrest
          (List.nodup_cons.1 hnd).2 r hrl hrt

/-- Every directory record of a successful fold ends as a directory. -/
theorem fold_dir_created (dest : String) (force : Bool)
    (l : List FileSystemObject) (s s' : FSState)
    (h : l.foldlM (writeStep dest force) s = Except.ok s') :
    ∀ r ∈ l, r.type = FSOType.directory → s'.isDir (destPath dest r) = true := by
  intro r hr hrt
  by_cases hnil : destPath dest r = []
  · rw [isDir_iff]; exact Or.inl hnil
  · rcases foldlM_mem_step (writeStep dest force) l s s' h r hr with ⟨t, t', l₂, hstep, hrest⟩
    rw [writeStep_dir_eq dest force t r hrt] at hstep
    have h1 : destPath dest r ∈ t'.dirs :=
      mkdirRec_post t _ t' hstep _ (self_mem_prefixes _ hnil)
    rw [isDir_iff]
    exact Or.inr (fold_dirs_mono dest force l₂ t' s' hrest _ h1)

/-- Every ancestor of every file record of a successful fold ends as a
directory. -/
theorem fold_file_ancestors (dest : String) (force : Bool)
    (l : List FileSystemObject) (s s' : FSState)
    (h : l.foldlM (writeStep dest force) s = Except.ok s') :
    ∀ r ∈ l, r.type = FSOType.file →
      ∀ q ∈ prefixes (destPath dest r).dropLast, q ∈ s'.dirs := by
  intro r hr hrt q hq
  rcases foldlM_mem_step (writeStep dest force) l s s' h r hr with ⟨t, t', l₂, hstep, hrest⟩
  have h1 := (writeStep_file_post dest force t r t' hrt hstep).2.2.2.2 q hq
  exact fold_dirs_mono dest force l₂ t' s' hrest q h1

/-- Every file record of a successful fold ends as an existing file key. -/
theorem fold_file_key (dest : String) (force : Bool)
    (l : List FileSystemObject) (s s' : FSState)
    (h : l.foldlM (writeStep dest force) s = Except.ok s') :
    ∀ r ∈ l, r.type = FSOType.file →
      destPath dest r ∈ s'.files.map Prod.fst ∧ destPath dest r ≠ [] := by
  intro r hr hrt
  rcases foldlM_mem_step (writeStep dest force) l s s' h r hr with ⟨t, t', l₂, hstep, hrest⟩
  have hpost := writeStep_file_post dest force t r t' hrt hstep
  exact ⟨fold_keys_mono dest force l₂ t' s' hrest _ hpost.2.1, hpost.2.2.2.1⟩

/-- Two disk states with equal components are equal. -/
theorem FSState.eq_of (s t : FSState) (h1 : s.dirs = t.dirs)
    (h2 : s.files = t.files) : s = t := by
  cases s; cases t; cases h1; cases h2; rfl

/-- Association lists with the same distinct keys and the same lookups are
equal. -/
theorem assocEq : ∀ (u v : List (FPath × String)),
    u.map Prod.fst = v.map Prod.fst → (v.map Prod.fst).Nodup →
    (∀ q, lookupFL u q = lookupFL v q) → u = v
  | [], [], _, _, _ => rfl
  | [], e :: v, hk, _, _ => by cases hk
  | e :: u, [], hk, _, _ => by cases hk
  | (a, b) :: u, (a2, b2) :: v, hk, hnd, hl => by
      rw [List.map_cons, List.map_cons] at hk
      injection hk with hk1 hk2
      subst hk1
      rcases List.nodup_cons.1 hnd with ⟨hnotin, hndv⟩
      have hb : b = b2 := by
        have hq := hl a
        simp [lookupFL] at hq
        exact hq
      subst hb
      have htail : ∀ q, lookupFL u q = lookupFL v q := by
        intro q
        by_cases hqe : a = q
        · subst hqe
          have hu : lookupFL u a = none :=
            (lookupFL_eq_none_iff u a).2 (by rw [hk2]; exact hnotin)
          have hv : lookupFL v a = none := (lookupFL_eq_none_iff v a).2 hnotin
          rw [hu, hv]
        · have hq := hl q
          simp only [lookupFL, if_neg hqe] at hq
          exact hq
      rw [assocEq u v hk2 hndv htail]

/-- A directory record contributes no written key. -/
theorem writtenKeys_cons_dir (dest : String) (r : FileSystemObject)
    (l : List FileSystemObject) (hr : r.type = FSOType.directory) :
    writtenKeys dest (r :: l) = writtenKeys dest l := by
  unfold writtenKeys
  rw [List.filter_cons]
  simp [hr]

/-- A file record contributes its destination path as a written key. -/
theorem writtenKeys_cons_file (dest : String) (r : FileSystemObject)
    (l : List FileSystemObject) (hr : r.type = FSOType.file) :
    writtenKeys dest (r :: l) = destPath dest r :: writtenKeys dest l := by
  unfold writtenKeys
  rw [List.filter_cons]
  simp [hr]

/-- Replaying a successful non-strict materialization from a state with the
same directories and keys as the result, differing at most on contents the
list rewrites, reproduces the result exactly. -/
theorem replay_aux (dest : String) :
    ∀ (l : List FileSystemObject) (s t s' : FSState),
      l.foldlM (writeStep dest false) s = Except.ok s' →
      t.dirs = s'.dirs →
      t.files.map Prod.fst = s'.files.map Prod.fst →
      (s'.files.map Prod.fst).Nodup →
      (∀ p ∈ s'.dirs, p ∉ s'.files.map Prod.fst) →
      (∀ q, t.lookupFile q ≠ s'.lookupFile q → q ∈ writtenKeys dest l) →
      l.foldlM (writeStep dest false) t = Except.ok s'
  | [], s, t, s', h, hdirs, hkeys, hnd, _, hdiff => by
      rw [List.foldlM_nil] at h
      cases h
      rw [List.foldlM_nil]
      have hfiles : t.files = s.files :=
        assocEq t.files s.files hkeys hnd (fun q => by
          by_contra hne
          exact absurd (hdiff q hne) (by simp [writtenKeys]))
      rw [FSState.eq_of t s hdirs hfiles]
      rfl
  | r :: l, s, t, s', h, hdirs, hkeys, hnd, hdisj, hdiff => by
      rcases (foldlM_cons_ok _ r l s s').1 h with ⟨s₁, h1, hrest⟩
      cases hr : r.type with
      | directory =>
          have hstep : writeStep dest false t r = Except.ok t := by
            rw [writeStep_dir_eq dest false t r hr]
            apply mkdirRec_noop
            intro q hq
            have hq1 : q ∈ s₁.dirs := by
              rw [writeStep_dir_eq dest false s r hr] at h1
              exact mkdirRec_post s _ s₁ h1 q hq
            have hq2 : q ∈ s'.dirs := fold_dirs_mono dest false l s₁ s' hrest q hq1
            exact ⟨by rw [hdirs]; exact hq2, by rw [hkeys]; exact hdisj q hq2⟩
          refine (foldlM_cons_ok _ r l t s').2 ⟨t, hstep, ?_⟩
          apply replay_aux dest l s₁ t s' hrest hdirs hkeys hnd hdisj
          intro q hq
          have h2 := hdiff q hq
          rw [writtenKeys_cons_dir dest r l hr] at h2
          exact h2
      | file =>
          rcases writeStep_file_ok dest false s r s₁ hr h1 with ⟨sa, hmk, hw⟩
          rcases (writeFile_ok_iff sa _ _ _ s₁).1 hw with ⟨hnd1, -, -, heq1⟩
          have hpne : destPath dest r ≠ [] :=
            fun hh => (isDir_false_iff sa _).1 hnd1 (Or.inl hh)
          have hppre : ∀ q ∈ prefixes (destPath dest r).dropLast, q ∈ s'.dirs := by
            intro q hq
            have h2 : q ∈ sa.dirs := mkdirRec_post s _ sa hmk q hq
            have h3 : q ∈ s₁.dirs := by rw [heq1]; exact h2
            exact fold_dirs_mono dest false l s₁ s' hrest q h3
          have hpkey : destPath dest r ∈ s'.files.map Prod.fst := by
            have h2 : destPath dest r ∈ s₁.files.map Prod.fst := by
              rw [heq1]
              exact (lookupFL_isSome_iff _ _).1
                (by rw [lookupFL_setFile_self]; rfl)
            exact fold_keys_mono dest false l s₁ s' hrest _ h2
          have hpnotdir : destPath dest r ∉ s'.dirs :=
            fun hh => hdisj _ hh hpkey
          have hstept : writeStep dest false t r = Except.ok
              { t with files :=
                  setFile t.files (destPath dest r) (r.content.getD "") } := by
            rw [writeStep_file_eq dest false t r hr]
            have hmkt : mkdirRec t (joinPath dest r.path).dropLast =
                Except.ok t := by
              apply mkdirRec_noop
              intro q hq
              exact ⟨by rw [hdirs]; exact hppre q hq,
                by rw [hkeys]; exact hdisj q (hppre q hq)⟩
            rw [hmkt, except_bind_ok]
            refine (writeFile_ok_iff t _ _ _ _).2 ⟨?_, ?_, ?_, rfl⟩
            · refine (isDir_false_iff t _).2 ?_
              rintro (hh | hh)
              · exact hpne hh
              · exact hpnotdir (hdirs ▸ hh)
            · exact fun hh => WriteFlag.noConfusion hh.1
            · refine (isDir_iff t _).2 ?_
              by_cases hdl : (joinPath dest r.path).dropLast = []
              · exact Or.inl hdl
              · refine Or.inr ?_
                rw [hdirs]
                exact hppre _ (self_mem_prefixes _ hdl)
          refine (foldlM_cons_ok _ r l t s').2
            ⟨{ t with files :=
                setFile t.files (destPath dest r) (r.content.getD "") },
              hstept,
              replay_aux dest l s₁ _ s' hrest ?_ ?_ hnd hdisj ?_⟩
          · exact hdirs
          · show (setFile t.files (destPath dest r)
                (r.content.getD "")).map Prod.fst = s'.files.map Prod.fst
            rw [setFile_map_fst_mem t.files _ _ (by rw [hkeys]; exact hpkey)]
            exact hkeys
          · intro q hq2
            by_cases hqp : q = destPath dest r
            · subst hqp
              by_contra hqw
              apply hq2
              have hs1 : s₁.lookupFile (destPath dest r) =
                  some (r.content.getD "") := by
                rw [heq1]
                exact lookupFL_setFile_self sa.files _ _
              have hpres := fold_lookup_pres dest false l s₁ s' hrest _ hqw
              rw [hpres, hs1]
              exact lookupFL_setFile_self t.files _ _
            · have ht1 : FSState.lookupFile
                  { t with files :=
                      setFile t.files (destPath dest r) (r.content.getD "") }
                  q = t.lookupFile q :=
                lookupFL_setFile_other t.files _ q _ hqp
              rw [ht1] at hq2
              have h2 := hdiff q hq2
              rw [writtenKeys_cons_file dest r l hr] at h2
              rcases List.mem_cons.1 h2 with h3 | h3
              · exact absurd h3 hqp
              · exact h3

/-- A normalization step on anything but `..` keeps the accumulator as a
prefix. -/
theorem normStep_keep (acc : List String) (seg : String) (h : seg ≠ "..") :
    acc <+: normStep acc seg := by
  unfold normStep
  by_cases h1 : seg = "" ∨ seg = "."
  · rw [if_pos h1]
  · rw [if_neg h1, if_neg h]
    exact List.prefix_append acc [seg]

/-- Folding normalization over segments without `..` keeps the accumulator as
a prefix. -/
theorem foldl_normStep_pre :
    ∀ (segs : List String) (acc : List String), ".." ∉ segs →
      acc <+: segs.foldl normStep acc
  | [], acc, _ => List.prefix_refl acc
  | seg :: segs, acc, h => by
      rw [List.foldl_cons]
      have h1 : seg ≠ ".." := fun hh => h (by rw [hh]; exact List.mem_cons_self _ _)
      have h2 : ".." ∉ segs := fun hh => h (List.mem_cons_of_mem _ hh)
      exact (normStep_keep acc seg h1).trans
        (foldl_normStep_pre segs (normStep acc seg) h2)

/-- Joining a relative path without upward segments keeps the normalized
destination as a prefix. -/
theorem joinPath_pre (dest rel : String) (h : ".." ∉ splitSegs rel) :
    normalizeSegs (splitSegs dest) <+: joinPath dest rel := by
  unfold joinPath normalizeSegs
  rw [List.foldl_append]
  exact foldl_normStep_pre (splitSegs rel) _ h

/-- Initial segments are prefixes. -/
theorem takePre (l : FPath) (n : Nat) : l.take n <+: l :=
  ⟨l.drop n, List.take_append_drop n l⟩

/-- Members of `prefixes p` are prefixes of `p`. -/
theorem mem_prefixes_pre (p q : FPath) (h : q ∈ prefixes p) : q <+: p := by
  rcases (mem_prefixes_iff p q).1 h with ⟨i, -, hq⟩
  rw [← hq]
  exact takePre p (i + 1)

/-- The translation of a multi-provider record into the raw-OpenAI variant's
record shape: the optional content becomes the written string. -/
def toRaw (r : FileSystemObject) : FileSystemObjectRaw :=
  ⟨r.path, r.type, r.content.getD ""⟩

/-- The two variants' loop bodies agree on translated records. -/
theorem writeStepRaw_toRaw (dest : String) (force : Bool) (st : FSState)
    (r : FileSystemObject) :
    writeStepRaw dest force st (toRaw r) = writeStep dest force st r := by
  cases hr : r.type <;> simp [writeStepRaw, writeStep, toRaw, hr]

/-- The two variants' materialization folds agree on translated record lists. -/
theorem fold_raw_eq (dest : String) (force : Bool) :
    ∀ (l : List FileSystemObject) (s : FSState),
      (l.map toRaw).foldlM (writeStepRaw dest force) s =
        l.foldlM (writeStep dest force) s
  | [], _ => rfl
  | r :: l, s => by
      rw [List.map_cons, List.foldlM_cons, List.foldlM_cons, writeStepRaw_toRaw]
      cases h : writeStep dest force s r with
      | error e => rw [except_bind_error, except_bind_error]
      | ok s₁ =>
          rw [except_bind_ok, except_bind_ok]
          exact fold_raw_eq dest force l s₁

/-- With provider `amazon-bedrock`, a `getLanguageModel` failure is exactly the
missing-AWS-environment error. -/
theorem getLanguageModel_amazon_error (env : Env) (a : Answers)
    (hp : a.provider = "amazon-bedrock") (e : String)
    (h : getLanguageModel env a = Except.error e) :
    e = "amazon-bedrock provider only supports providing credentials through enviroment varibles. Please provide all env varibles (AWS_REGION, AWS_ACCESS_KEY_ID, AWS_SECRET_ACCESS_KEY, AWS_SESSION_TOKEN)" := by
  unfold getLanguageModel at h
  rw [hp] at h
  by_cases henv : (envFalsy env.awsRegion || envFalsy env.awsAccessKeyId ||
      envFalsy env.awsSecretAccessKey) = true
  · rw [if_neg (by decide), if_neg (by decide), if_neg (by decide),
      if_neg (by decide), if_pos rfl, if_pos henv] at h
    injection h with h2
    exact h2.symm
  · rw [if_neg (by decide), if_neg (by decide), if_neg (by decide),
      if_neg (by decide), if_pos rfl, if_neg henv] at h
    cases h

/-- C7: the provider-selection step (`getLanguageModel`) succeeds only for
identifiers in the fixed set {openai, anthropic, azure, google,
amazon-bedrock, deepseek}, and raises an `Unsupported llm provider` error for
every identifier outside that set. -/
theorem c7_provider_set (env : Env) (a : Answers) :
    ((∃ m, getLanguageModel env a = Except.ok m) →
      a.provider ∈ supportedProviders) ∧
    (a.provider ∉ supportedProviders →
      getLanguageModel env a =
        Except.error ("Unsupported llm provider: " ++ a.provider)) := by
  constructor
  · rintro ⟨m, hm⟩
    unfold getLanguageModel at hm
    split_ifs at hm with h1 h2 h3 h4 h5 h6 h7
    all_goals try cases hm
    · rw [h1]; decide
    · rw [h2]; decide
    · rw [h3]; decide
    · rw [h4]; decide
    · rw [h5]; decide
    · rw [h7]; decide
  · intro hns
    have h1 : a.provider ≠ "openai" := fun hh => hns (by rw [hh]; decide)
    have h2 : a.provider ≠ "anthropic" := fun hh => hns (by rw [hh]; decide)
    have h3 : a.provider ≠ "azure" := fun hh => hns (by rw [hh]; decide)
    have h4 : a.provider ≠ "google" := fun hh => hns (by rw [hh]; decide)
    have h5 : a.provider ≠ "amazon-bedrock" := fun hh => hns (by rw [hh]; decide)
    have h6 : a.provider ≠ "deepseek" := fun hh => hns (by rw [hh]; decide)
    unfold getLanguageModel
    rw [if_neg h1, if_neg h2, if_neg h3, if_neg h4, if_neg h5, if_neg h6]

/-- Witness for C7 at a concrete unsupported identifier. -/
theorem c7_witness :
    getLanguageModel ⟨none, none, none⟩ ⟨"", "grok", "m", "t", "", []⟩ =
      Except.error "Unsupported llm provider: grok" := by
  rw [(c7_provider_set ⟨none, none, none⟩ ⟨"", "grok", "m", "t", "", []⟩).2
    (by decide)]
  decide

/-- C4: when the required token or the provider is missing, `onRender` fails
before the provider network call and writes nothing. -/
theorem c4_validation_before_call (env : Env) (a : Answers)
    (buildPaths : List String) (force : Bool) (resp : Option FileSystem)
    (s : FSState)
    (h : (a.token = "" ∧ a.provider ≠ "amazon-bedrock") ∨ a.provider = "") :
    (onRender env a buildPaths force resp s).llmCalled = false ∧
    (∃ e, (onRender env a buildPaths force resp s).errorMsg = some e) ∧
    (onRender env a buildPaths force resp s).finalState = s := by
  unfold onRender
  rcases h with h | h
  · rw [if_pos h]
    exact ⟨rfl, ⟨_, rfl⟩, rfl⟩
  · by_cases h1 : a.token = "" ∧ a.provider ≠ "amazon-bedrock"
    · rw [if_pos h1]
      exact ⟨rfl, ⟨_, rfl⟩, rfl⟩
    · rw [if_neg h1, if_pos h]
      exact ⟨rfl, ⟨_, rfl⟩, rfl⟩

/-- Witness for C4 with a missing token. -/
theorem c4_witness :
    (onRender ⟨none, none, none⟩
        ⟨"build a cli", "openai", "gpt-4o-mini", "", "", []⟩ ["out"] false none
        emptyFS).llmCalled = false ∧
    (∃ e, (onRender ⟨none, none, none⟩
        ⟨"build a cli", "openai", "gpt-4o-mini", "", "", []⟩ ["out"] false none
        emptyFS).errorMsg = some e) ∧
    (onRender ⟨none, none, none⟩
        ⟨"build a cli", "openai", "gpt-4o-mini", "", "", []⟩ ["out"] false none
        emptyFS).finalState = emptyFS :=
  c4_validation_before_call ⟨none, none, none⟩
    ⟨"build a cli", "openai", "gpt-4o-mini", "", "", []⟩ ["out"] false none
    emptyFS (Or.inl ⟨rfl, by decide⟩)

/-- C5: when the provider call yields no parsable structured result, `onRender`
throws `LLM didnt return a valid response` and leaves the disk unchanged; the
materialization step is never invoked. -/
theorem c5_invalid_response (env : Env) (a : Answers) (buildPaths : List String)
    (force : Bool) (s : FSState)
    (htok : ¬(a.token = "" ∧ a.provider ≠ "amazon-bedrock"))
    (hprov : a.provider ≠ "")
    (hm : ∃ m, getLanguageModel env a = Except.ok m) :
    onRender env a buildPaths force none s =
      ⟨true, some "LLM didnt return a valid response", s⟩ := by
  unfold onRender
  rcases hm with ⟨m, hm⟩
  rw [if_neg htok, if_neg hprov, hm]

/-- Witness for C5 at a concrete valid configuration. -/
theorem c5_witness :
    onRender ⟨none, none, none⟩ ⟨"b", "openai", "gpt-4o-mini", "tok", "", []⟩
        ["out"] false none emptyFS =
      ⟨true, some "LLM didnt return a valid response", emptyFS⟩ :=
  c5_invalid_response ⟨none, none, none⟩
    ⟨"b", "openai", "gpt-4o-mini", "tok", "", []⟩ ["out"] false emptyFS
    (by decide) (by decide) ⟨LanguageModel.openai "" "tok" "gpt-4o-mini", by decide⟩

/-- C10: the credential check precedes the provider check (missing token and
provider yields the token error), and a missing token with provider
`amazon-bedrock` never yields the token error. -/
theorem c10_token_check_first (env : Env) (a : Answers)
    (buildPaths : List String) (force : Bool) (resp : Option FileSystem)
    (s : FSState) :
    (a.token = "" ∧ a.provider = "" →
      (onRender env a buildPaths force resp s).errorMsg =
        some "API token required!") ∧
    (a.token = "" ∧ a.provider = "amazon-bedrock" →
      (onRender env a buildPaths force resp s).errorMsg ≠
        some "API token required!") := by
  constructor
  · rintro ⟨ht, hp⟩
    unfold onRender
    rw [if_pos ⟨ht, by rw [hp]; decide⟩]
  · rintro ⟨ht, hp⟩
    unfold onRender
    rw [if_neg (fun hh => hh.2 hp), if_neg (by rw [hp]; decide)]
    cases hm : getLanguageModel env a with
    | error e =>
        show some e ≠ some "API token required!"
        rw [getLanguageModel_amazon_error env a hp e hm]
        decide
    | ok m =>
        cases resp with
        | none =>
            show some "LLM didnt return a valid response" ≠
              some "API token required!"
            decide
        | some fileSystem =>
            have hred : (match buildPaths.foldlM
                  (fun st buildPath =>
                    generateFileContent buildPath fileSystem force st) s with
                | Except.ok s2 =>
                    (⟨true, none, s2⟩ : RenderTrace)
                | Except.error (msg, s2) =>
                    (⟨true, some msg, s2⟩ : RenderTrace)).errorMsg ≠
                some "API token required!" := by
              cases hfold : buildPaths.foldlM
                  (fun st buildPath =>
                    generateFileContent buildPath fileSystem force st) s with
              | ok s2 => simp
              | error ms2 =>
                  obtain ⟨msg, s2⟩ := ms2
                  show some msg ≠ some "API token required!"
                  have hf : FsMsg msg := foldlM_error_mem _
                    (fun e2 => FsMsg e2.1)
                    (fun st bp e2 h2 =>
                      generateFileContent_error_msg bp fileSystem force st e2 h2)
                    buildPaths s (msg, s2) hfold
                  intro hh
                  injection hh with hh2
                  subst hh2
                  rcases hf with h | h | h | h <;> exact absurd h (by decide)
            exact hred

/-- Witness for C10: with both fields empty the token error is raised, and
with provider `amazon-bedrock` it is not. -/
theorem c10_witness :
    (onRender ⟨none, none, none⟩ ⟨"b", "", "m", "", "", []⟩ ["out"] false none
        emptyFS).errorMsg = some "API token required!" ∧
    (onRender ⟨none, none, none⟩ ⟨"b", "amazon-bedrock", "m", "", "", []⟩
        ["out"] false none emptyFS).errorMsg ≠ some "API token required!" :=
  ⟨(c10_token_check_first ⟨none, none, none⟩ ⟨"b", "", "m", "", "", []⟩
      ["out"] false none emptyFS).1 ⟨rfl, rfl⟩,
    (c10_token_check_first ⟨none, none, none⟩
      ⟨"b", "amazon-bedrock", "m", "", "", []⟩ ["out"] false none emptyFS).2
      ⟨rfl, rfl⟩⟩

/-- The leading part of a path is a prefix of it. -/
theorem dropLastPre (l : FPath) : l.dropLast <+: l := by
  rw [List.dropLast_eq_take]
  exact takePre l (l.length - 1)

/-- Every directory a record needs ends up existing after a successful fold. -/
theorem fold_needed_dirs (dest : String) (force : Bool)
    (l : List FileSystemObject) (s s' : FSState)
    (h : l.foldlM (writeStep dest force) s = Except.ok s') :
    ∀ r ∈ l, ∀ q ∈ neededDirs dest r, q ∈ s'.dirs := by
  intro r hr q hq
  cases hrt : r.type with
  | directory =>
      unfold neededDirs at hq
      rw [hrt] at hq
      rcases foldlM_mem_step (writeStep dest force) l s s' h r hr with
        ⟨t, t', l₂, hstep, hrest⟩
      rw [writeStep_dir_eq dest force t r hrt] at hstep
      exact fold_dirs_mono dest force l₂ t' s' hrest q
        (mkdirRec_post t _ t' hstep q hq)
  | file =>
      unfold neededDirs at hq
      rw [hrt] at hq
      exact fold_file_ancestors dest force l s s' h r hr hrt q hq

/-- C6: the materialization steps of the two template variants are equivalent.
For every destination root, force flag, state, and record list in which every
file record carries a content string, `generateFileContent` of the
multi-provider variant and `generateFileContent` of the raw-OpenAI variant
(on the translated records) return identical results. -/
theorem c6_variants_equivalent (dest : String) (fs : FileSystem) (force : Bool)
    (s : FSState)
    (_hc : ∀ r ∈ fs.fileContents, r.type = FSOType.file →
      r.content.isSome = true) :
    generateFileContentRaw dest ⟨fs.fileContents.map toRaw⟩ force s =
      generateFileContent dest fs force s :=
  fold_raw_eq dest force fs.fileContents s

/-- Witness for C6 at a concrete record list. -/
theorem c6_witness :
    generateFileContentRaw "out" ⟨[⟨"./a.txt", FSOType.file, "x"⟩]⟩ false
        emptyFS =
      generateFileContent "out" ⟨[⟨"./a.txt", FSOType.file, some "x"⟩]⟩ false
        emptyFS :=
  c6_variants_equivalent "out" ⟨[⟨"./a.txt", FSOType.file, some "x"⟩]⟩ false
    emptyFS (by decide)

/-- C2: materializing a file record whose destination path already holds an
existing file fails under the strict mode (`wx`) with the disk unchanged,
and succeeds under the non-strict mode (`w`), replacing the file's content
with the record's content. -/
theorem c2_strict_overwrite (dest : String) (r : FileSystemObject) (s : FSState)
    (c0 : String) (hfile : r.type = FSOType.file)
    (hex : s.lookupFile (destPath dest r) = some c0)
    (hnd : s.isDir (destPath dest r) = false)
    (hpar : ∀ q ∈ prefixes (destPath dest r).dropLast,
      q ∈ s.dirs ∧ q ∉ s.files.map Prod.fst) :
    generateFileContent dest ⟨[r]⟩ true s =
      Except.error ("EEXIST: file already exists", s) ∧
    generateFileContent dest ⟨[r]⟩ false s =
      Except.ok { s with files := setFile s.files (destPath dest r) (r.content.getD "") } ∧
    FSState.lookupFile { s with files := setFile s.files (destPath dest r) (r.content.getD "") }
      (destPath dest r) = some (r.content.getD "") := by
  have hmk : mkdirRec s (joinPath dest r.path).dropLast = Except.ok s :=
    mkdirRec_noop s _ hpar
  have hisf : s.isFile (destPath dest r) = true := by
    unfold FSState.isFile
    rw [hex]
    rfl
  refine ⟨?_, ?_, lookupFL_setFile_self s.files _ _⟩
  · have hws : writeStep dest true s r =
        Except.error ("EEXIST: file already exists", s) := by
      rw [writeStep_file_eq dest true s r hfile, hmk, except_bind_ok]
      exact writeFile_wx_exists s _ _ hnd hisf
    unfold generateFileContent
    rw [List.foldlM_cons, hws, except_bind_error]
  · have hws : writeStep dest false s r =
        Except.ok { s with files := setFile s.files (destPath dest r) (r.content.getD "") } := by
      rw [writeStep_file_eq dest false s r hfile, hmk, except_bind_ok]
      refine (writeFile_ok_iff s _ _ _ _).2 ⟨hnd, ?_, ?_, rfl⟩
      · exact fun hh => WriteFlag.noConfusion hh.1
      · refine (isDir_iff s _).2 ?_
        by_cases hdl : (joinPath dest r.path).dropLast = []
        · exact Or.inl hdl
        · exact Or.inr ((hpar _ (self_mem_prefixes _ hdl)).1)
    unfold generateFileContent
    rw [List.foldlM_cons, hws, except_bind_ok]
    rfl

/-- Witness for C2 at a concrete existing file. -/
theorem c2_witness :
    generateFileContent "out" ⟨[⟨"./a.txt", FSOType.file, some "new"⟩]⟩ true
        ⟨[["out"]], [(["out", "a.txt"], "old")]⟩ =
      Except.error ("EEXIST: file already exists",
        ⟨[["out"]], [(["out", "a.txt"], "old")]⟩) ∧
    generateFileContent "out" ⟨[⟨"./a.txt", FSOType.file, some "new"⟩]⟩ false
        ⟨[["out"]], [(["out", "a.txt"], "old")]⟩ =
      Except.ok ⟨[["out"]], [(["out", "a.txt"], "new")]⟩ := by
  have h := c2_strict_overwrite "out" ⟨"./a.txt", FSOType.file, some "new"⟩
    ⟨[["out"]], [(["out", "a.txt"], "old")]⟩ "old" rfl (by decide) (by decide)
    (by decide)
  refine ⟨h.1, ?_⟩
  rw [h.2.1]
  decide

/-- C9: a successful materialization creates every ancestor directory of each
file record's destination path, whether or not those directories appear as
directory records. -/
theorem c9_ancestors_created (dest : String) (fs : FileSystem) (force : Bool)
    (s s' : FSState)
    (hok : generateFileContent dest fs force s = Except.ok s') :
    ∀ r ∈ fs.fileContents, r.type = FSOType.file →
      ∀ q ∈ prefixes (destPath dest r).dropLast, q ∈ s'.dirs :=
  fold_file_ancestors dest force fs.fileContents s s' hok

/-- Witness for C9: a lone file record at depth three creates its two
ancestor directories. -/
theorem c9_witness :
    (["out", "a"] : FPath) ∈
      (⟨[["out"], ["out", "a"], ["out", "a", "b"]],
        [(["out", "a", "b", "c.txt"], "x")]⟩ : FSState).dirs ∧
    (["out", "a", "b"] : FPath) ∈
      (⟨[["out"], ["out", "a"], ["out", "a", "b"]],
        [(["out", "a", "b", "c.txt"], "x")]⟩ : FSState).dirs :=
  ⟨c9_ancestors_created "out" ⟨[⟨"./a/b/c.txt", FSOType.file, some "x"⟩]⟩ false
      emptyFS
      ⟨[["out"], ["out", "a"], ["out", "a", "b"]],
        [(["out", "a", "b", "c.txt"], "x")]⟩
      (by decide) ⟨"./a/b/c.txt", FSOType.file, some "x"⟩ (by decide) rfl
      ["out", "a"] (by decide),
    c9_ancestors_created "out" ⟨[⟨"./a/b/c.txt", FSOType.file, some "x"⟩]⟩ false
      emptyFS
      ⟨[["out"], ["out", "a"], ["out", "a", "b"]],
        [(["out", "a", "b", "c.txt"], "x")]⟩
      (by decide) ⟨"./a/b/c.txt", FSOType.file, some "x"⟩ (by decide) rfl
      ["out", "a", "b"] (by decide)⟩

/-- Counterexample to C1 as stated: a single file record at `./a/b.txt`
produces the directories `out` and `out/a`, although the input contains no
directory records at all and neither directory is any record's destination
path — the output is not exactly the listed records. -/
theorem c1_counterexample :
    generateFileContent "out" ⟨[⟨"./a/b.txt", FSOType.file, some "hi"⟩]⟩ false
        emptyFS =
      Except.ok ⟨[["out"], ["out", "a"]], [(["out", "a", "b.txt"], "hi")]⟩ ∧
    (∀ r ∈ ({ fileContents := [⟨"./a/b.txt", FSOType.file, some "hi"⟩] } :
        FileSystem).fileContents, r.type ≠ FSOType.directory) ∧
    (["out", "a"] : FPath) ∉
      ([(⟨"./a/b.txt", FSOType.file, some "hi"⟩ : FileSystemObject)].map
        (destPath "out")) :=
  ⟨by decide, by decide, by decide⟩

/-- C1 (amended): starting from a fresh disk, with pairwise distinct
destination paths, a successful materialization produces exactly the listed
records plus the ancestor directories their paths need: every directory
record's path is a directory, every file record's path holds the record's
content (empty when absent), every file on the disk comes from a file record,
every directory on the disk is needed by some record, and every needed
directory exists. -/
theorem c1_materialization_exact (dest : String) (fs : FileSystem)
    (force : Bool) (s' : FSState)
    (hnd : (fs.fileContents.map (destPath dest)).Nodup)
    (hok : generateFileContent dest fs force emptyFS = Except.ok s') :
    (∀ r ∈ fs.fileContents, r.type = FSOType.directory →
      s'.isDir (destPath dest r) = true) ∧
    (∀ r ∈ fs.fileContents, r.type = FSOType.file →
      s'.lookupFile (destPath dest r) = some (r.content.getD "")) ∧
    (∀ q c, s'.lookupFile q = some c →
      ∃ r ∈ fs.fileContents, r.type = FSOType.file ∧ destPath dest r = q ∧
        r.content.getD "" = c) ∧
    (∀ q ∈ s'.dirs, ∃ r ∈ fs.fileContents, q ∈ neededDirs dest r) ∧
    (∀ r ∈ fs.fileContents, ∀ q ∈ neededDirs dest r, q ∈ s'.dirs) := by
  refine ⟨fold_dir_created dest force fs.fileContents emptyFS s' hok,
    fold_file_content dest force fs.fileContents emptyFS s' hok hnd,
    ?_, ?_, fold_needed_dirs dest force fs.fileContents emptyFS s' hok⟩
  · intro q c hl
    rcases fold_lookup_new dest force fs.fileContents emptyFS s' hok q c hl
      with h | h
    · simp [emptyFS, FSState.lookupFile, lookupFL] at h
    · exact h
  · intro q hq
    rcases fold_dirs_new dest force fs.fileContents emptyFS s' hok q hq
      with h | h
    · simp [emptyFS] at h
    · exact h

/-- Witness for C1 (amended) at a concrete two-record list. -/
theorem c1_witness :
    FSState.lookupFile
        ⟨[["out"], ["out", "src"]], [(["out", "src", "index.js"], "x")]⟩
        ["out", "src", "index.js"] = some "x" ∧
    FSState.isDir
        ⟨[["out"], ["out", "src"]], [(["out", "src", "index.js"], "x")]⟩
        ["out", "src"] = true := by
  have h := c1_materialization_exact "out"
    ⟨[⟨"./src", FSOType.directory, none⟩,
      ⟨"./src/index.js", FSOType.file, some "x"⟩]⟩
    false ⟨[["out"], ["out", "src"]], [(["out", "src", "index.js"], "x")]⟩
    (by decide) (by decide)
  exact ⟨h.2.1 ⟨"./src/index.js", FSOType.file, some "x"⟩ (by decide) rfl,
    h.1 ⟨"./src", FSOType.directory, none⟩ (by decide) rfl⟩

/-- Counterexample to C3 as stated: a record whose path climbs with `..`
materializes outside the destination root: with root `out`, the record
`../evil.txt` is written at `evil.txt`, which is not under `out`. -/
theorem c3_counterexample :
    generateFileContent "out" ⟨[⟨"../evil.txt", FSOType.file, some "x"⟩]⟩ false
        emptyFS = Except.ok ⟨[], [(["evil.txt"], "x")]⟩ ∧
    normalizeSegs (splitSegs "out") = ["out"] ∧
    ¬ (["out"] : FPath) <+: (["evil.txt"] : FPath) := by
  refine ⟨by decide, by decide, ?_⟩
  rintro ⟨t, ht⟩
  injection ht with h1 h2
  exact absurd h1 (by decide)

/-- C3 (amended): when no record path contains an upward (`..`) segment, every
file a run from a fresh disk creates is under the normalized destination root,
and every directory it creates is under the root or is one of the root's own
ancestors (which the recursive mkdir of the root also creates). -/
theorem c3_paths_under_dest (dest : String) (fs : FileSystem) (force : Bool)
    (s' : FSState)
    (hno : ∀ r ∈ fs.fileContents, ".." ∉ splitSegs r.path)
    (hok : generateFileContent dest fs force emptyFS = Except.ok s') :
    (∀ q c, s'.lookupFile q = some c →
      normalizeSegs (splitSegs dest) <+: q) ∧
    (∀ q ∈ s'.dirs,
      normalizeSegs (splitSegs dest) <+: q ∨
        q <+: normalizeSegs (splitSegs dest)) := by
  constructor
  · intro q c hl
    rcases fold_lookup_new dest force fs.fileContents emptyFS s' hok q c hl
      with h | ⟨r, hr, -, hq, -⟩
    · simp [emptyFS, FSState.lookupFile, lookupFL] at h
    · rw [← hq]
      exact joinPath_pre dest r.path (hno r hr)
  · intro q hq
    rcases fold_dirs_new dest force fs.fileContents emptyFS s' hok q hq
      with h | ⟨r, hr, hn⟩
    · simp [emptyFS] at h
    · have hqp : q <+: destPath dest r := by
        unfold neededDirs at hn
        cases hrt : r.type with
        | directory =>
            rw [hrt] at hn
            exact mem_prefixes_pre _ q hn
        | file =>
            rw [hrt] at hn
            exact (mem_prefixes_pre _ q hn).trans (dropLastPre _)
      have hdp : normalizeSegs (splitSegs dest) <+: destPath dest r :=
        joinPath_pre dest r.path (hno r hr)
      exact List.prefix_or_prefix_of_prefix hdp hqp

/-- Witness for C3 (amended) at a concrete record list without `..`. -/
theorem c3_witness :
    normalizeSegs (splitSegs "out") <+: (["out", "a", "b.txt"] : FPath) :=
  (c3_paths_under_dest "out" ⟨[⟨"./a/b.txt", FSOType.file, some "hi"⟩]⟩ false
    ⟨[["out"], ["out", "a"]], [(["out", "a", "b.txt"], "hi")]⟩
    (by decide) (by decide)).1 ["out", "a", "b.txt"] "hi" (by decide)

/-- Counterexample to C8 as stated: running the non-strict materialization is
not even guaranteed to succeed once — a file record followed by a directory
record underneath it makes the run throw. -/
theorem c8_counterexample :
    generateFileContent "out"
        ⟨[⟨"./a", FSOType.file, some "x"⟩, ⟨"./a/b", FSOType.directory, none⟩]⟩
        false emptyFS =
      Except.error ("EEXIST: file exists",
        ⟨[["out"]], [(["out", "a"], "x")]⟩) := by
  decide

/-- C8 (amended): from a well-formed disk, when the first non-strict run
succeeds, running `generateFileContent` again on its result succeeds and
changes nothing, so two runs in succession leave the same tree as one. -/
theorem c8_rerun_idempotent (dest : String) (fs : FileSystem) (s s' : FSState)
    (hwf : WF s)
    (hok : generateFileContent dest fs false s = Except.ok s') :
    generateFileContent dest fs false s' = Except.ok s' := by
  have hwf' : WF s' := fold_WF dest false fs.fileContents s s' hok hwf
  exact replay_aux dest fs.fileContents s s' s' hok rfl rfl hwf'.1 hwf'.2
    (fun q hq => absurd rfl hq)

/-- Witness for C8 (amended) at a concrete run. -/
theorem c8_witness :
    generateFileContent "out" ⟨[⟨"./a.txt", FSOType.file, some "x"⟩]⟩ false
        ⟨[["out"]], [(["out", "a.txt"], "x")]⟩ =
      Except.ok ⟨[["out"]], [(["out", "a.txt"], "x")]⟩ :=
  c8_rerun_idempotent "out" ⟨[⟨"./a.txt", FSOType.file, some "x"⟩]⟩ emptyFS
    ⟨[["out"]], [(["out", "a.txt"], "x")]⟩
    ⟨by simp [emptyFS], by simp [emptyFS]⟩ (by decide)
